import Mathlib

/-!
Verification of the shared utility library of the agent-orchestrator
plugins: the shell argument escaper `shellEscape`, the AppleScript string
escaper `escapeAppleScript`, the URL scheme validator `validateUrl`, and
the bounded tail reader `readLastJsonlEntry` for JSON-Lines files.

The embedding works over `List Char`. File contents are modelled as
character sequences; the byte window of the tail reader is identified with
the character window, which is exact for single-byte (ASCII-range)
characters, and the UTF-8 decode step of the source is the identity under
this identification. JavaScript strings, `String.replace` with a
single-character global pattern, `String.split("\n")`, `String.trim`, and
`JSON.parse` are each modelled by an executable Lean function below.
-/

/-! ## Generic string operations (JavaScript semantics) -/

/-- JavaScript `s.replace(/t/g, r)` for a single literal character `t` and a
replacement string `r` containing no `$` patterns: every occurrence of `t`
is replaced by `r`, all other characters pass through. -/
def replaceAllChar (t : Char) (r : List Char) : List Char → List Char
  | [] => []
  | c :: cs => (if c = t then r else [c]) ++ replaceAllChar t r cs

/-- JavaScript `s.split("\n")`: splitting the empty string gives `[""]`,
and a trailing newline yields a trailing empty piece. -/
def splitOnNl : List Char → List (List Char)
  | [] => [[]]
  | c :: cs =>
    if c = '\n' then [] :: splitOnNl cs
    else
      match splitOnNl cs with
      | [] => [[c]]
      | l :: ls => (c :: l) :: ls

/-- Whitespace recognised by JavaScript `String.prototype.trim` (ASCII
range: space, tab, LF, CR, VT, FF). -/
def isJsWs (c : Char) : Bool :=
  c = ' ' || c = '\t' || c = '\n' || c = '\r' || c = '\x0b' || c = '\x0c'

/-- JavaScript `s.trim()`. -/
def jsTrim (l : List Char) : List Char :=
  ((l.dropWhile isJsWs).reverse.dropWhile isJsWs).reverse

/-! ## Shell argument escaper

Source: `shellEscape(arg) = "'" + arg.replace(/'/g, "'\\''") + "'"`.
The replacement string denotes the four characters `'\''`. -/

/-- The four-character replacement `'\''` used for each embedded quote. -/
def shQuoteRepl : List Char := ['\'', '\\', '\'', '\'']

/-- `shellEscape` from the source: wrap in single quotes, replacing every
embedded single quote by `'\''`. -/
def shellEscape (arg : List Char) : List Char :=
  '\'' :: replaceAllChar '\'' shQuoteRepl arg ++ ['\'']

/-- Characters that a POSIX shell treats specially when they appear
unquoted inside a word: the interpretation model refuses to treat a word
containing them unquoted as a single literal token. -/
def shSpecial (c : Char) : Bool :=
  c = ' ' || c = '\t' || c = '\n' || c = '"' || c = '$' || c = '`' ||
  c = '|' || c = '&' || c = ';' || c = '<' || c = '>' || c = '(' ||
  c = ')' || c = '*' || c = '?' || c = '[' || c = '#' || c = '~'

/-- Tokenizer state of the shell-interpretation model: outside any quote,
inside a single-quoted segment, or right after an unquoted backslash. -/
inductive ShState where
  | plain
  | quoted
  | escaped
deriving DecidableEq

/-- Interpretation of one word by a POSIX-compliant shell, restricted to
the quoting constructs relevant here. Outside quotes: `'` opens a quoted
segment, a backslash makes the next character literal, special characters
make the input fail to be one literal token, and ordinary characters
stand for themselves. Inside quotes every character except the closing
`'` is literal. An unterminated quote or a trailing backslash is not a
well-formed token. -/
def shInterpret : ShState → List Char → Option (List Char)
  | .plain, [] => some []
  | .quoted, [] => none
  | .escaped, [] => none
  | .plain, c :: rest =>
    if c = '\'' then shInterpret .quoted rest
    else if c = '\\' then shInterpret .escaped rest
    else if shSpecial c then none
    else (shInterpret .plain rest).map (fun s => c :: s)
  | .quoted, c :: rest =>
    if c = '\'' then shInterpret .plain rest
    else (shInterpret .quoted rest).map (fun s => c :: s)
  | .escaped, c :: rest => (shInterpret .plain rest).map (fun s => c :: s)

/-! ## AppleScript string escaper

Source: `escapeAppleScript(s) = s.replace(/\\/g, "\\\\").replace(/"/g, '\\"')`:
first every backslash becomes two backslashes, then every double quote
becomes backslash-quote. -/

/-- `escapeAppleScript` from the source: the two global replacements, in
source order. -/
def escapeAppleScript (s : List Char) : List Char :=
  replaceAllChar '"' ['\\', '"'] (replaceAllChar '\\' ['\\', '\\'] s)

/-- Per-character expansion equivalent to the two replacements composed:
backslash and double quote gain a leading backslash, everything else is
unchanged. Used to state what the composition does. -/
def asEscChar (c : Char) : List Char :=
  if c = '\\' then ['\\', '\\']
  else if c = '"' then ['\\', '"']
  else [c]

/-- The escape sequences AppleScript recognises inside a double-quoted
string literal: `\\`, `\"`, `\n`, `\r`, `\t`; anything else after a
backslash is rejected. -/
def asUnescape (d : Char) : Option Char :=
  if d = '\\' then some '\\'
  else if d = '"' then some '"'
  else if d = 'n' then some '\n'
  else if d = 'r' then some '\r'
  else if d = 't' then some '\t'
  else none

/-- Evaluation of the body of an AppleScript double-quoted string literal,
given the characters after the opening quote; the Boolean state says
whether the previous character was an unconsumed backslash. An
unrecognised escape or an unterminated literal is rejected; an unescaped
`"` closes the literal and must be the last character of the input.
Characters other than `\` and `"` stand for themselves. -/
def asLiteralBody : Bool → List Char → Option (List Char)
  | _, [] => none
  | true, d :: rest =>
    match asUnescape d with
    | some ch => (asLiteralBody false rest).map (fun s => ch :: s)
    | none => none
  | false, c :: rest =>
    if c = '"' then (if rest.isEmpty then some [] else none)
    else if c = '\\' then asLiteralBody true rest
    else (asLiteralBody false rest).map (fun s => c :: s)

/-- Evaluation of a complete AppleScript double-quoted string literal:
an opening quote, a body, and the closing quote ending the input. -/
def asLiteralEval : List Char → Option (List Char)
  | [] => none
  | c :: rest => if c = '"' then asLiteralBody false rest else none

/-! ## URL scheme validator

Source: throws unless the url starts with `https://` or `http://`; the
message is `[<label>] Invalid url: must be http(s), got "<url>"`. -/

/-- The error message built by `validateUrl`. -/
def invalidUrlMsg (url label : List Char) : List Char :=
  '[' :: label ++ (("] Invalid url: must be http(s), got \"").toList ++ (url ++ ['"']))

/-- `validateUrl` from the source, with the thrown error represented as
`Except.error` carrying the message. -/
def validateUrl (url label : List Char) : Except (List Char) Unit :=
  if !(("https://").toList.isPrefixOf url) && !(("http://").toList.isPrefixOf url) then
    Except.error (invalidUrlMsg url label)
  else
    Except.ok ()

/-! ## JSON.parse model

A parsed JSON value; numbers keep their raw token, which is all the tail
reader ever needs of them. -/

inductive Json where
  | null
  | bool (b : Bool)
  | num (raw : List Char)
  | str (s : List Char)
  | arr (elems : List Json)
  | obj (members : List (List Char × Json))

/-- Insignificant whitespace of the JSON grammar. -/
def isJsonWs (c : Char) : Bool :=
  c = ' ' || c = '\t' || c = '\n' || c = '\r'

def skipJsonWs (l : List Char) : List Char := l.dropWhile isJsonWs

def isDigitCh (c : Char) : Bool := '0' ≤ c && c ≤ '9'

def hexDigitVal (c : Char) : Option Nat :=
  if '0' ≤ c && c ≤ '9' then some (c.toNat - ('0').toNat)
  else if 'a' ≤ c && c ≤ 'f' then some (c.toNat - ('a').toNat + 10)
  else if 'A' ≤ c && c ≤ 'F' then some (c.toNat - ('A').toNat + 10)
  else none

/-- The single-character escapes of the JSON string grammar. -/
def jsonUnescape (c : Char) : Option Char :=
  if c = '"' then some '"'
  else if c = '\\' then some '\\'
  else if c = '/' then some '/'
  else if c = 'n' then some '\n'
  else if c = 'r' then some '\r'
  else if c = 't' then some '\t'
  else if c = 'b' then some (Char.ofNat 8)
  else if c = 'f' then some (Char.ofNat 12)
  else none

/-- Body of a JSON string, given the characters after the opening quote;
yields the decoded characters and the input after the closing quote. An
unescaped control character, a bad escape, or a missing closing quote
rejects the string, as `JSON.parse` does. -/
def parseJStr : List Char → Option (List Char × List Char)
  | [] => none
  | '"' :: rest => some ([], rest)
  | '\\' :: 'u' :: a :: b :: c :: d :: rest =>
    match hexDigitVal a, hexDigitVal b, hexDigitVal c, hexDigitVal d with
    | some va, some vb, some vc, some vd =>
      (parseJStr rest).map
        (fun p => (Char.ofNat (((va * 16 + vb) * 16 + vc) * 16 + vd) :: p.1, p.2))
    | _, _, _, _ => none
  | '\\' :: e :: rest =>
    match jsonUnescape e with
    | some ch => (parseJStr rest).map (fun p => (ch :: p.1, p.2))
    | none => none
  | c :: rest =>
    if c.toNat < 32 then none
    else (parseJStr rest).map (fun p => (c :: p.1, p.2))

def spanDigits (l : List Char) : List Char × List Char := l.span isDigitCh

/-- Optional fraction part of a JSON number: a dot must be followed by at
least one digit. -/
def parseJNumFrac : List Char → Option (List Char × List Char)
  | '.' :: r =>
    let (ds, r2) := spanDigits r
    if ds.isEmpty then none else some ('.' :: ds, r2)
  | l => some ([], l)

/-- Optional exponent part of a JSON number. -/
def parseJNumExp : List Char → Option (List Char × List Char)
  | [] => some ([], [])
  | c :: r =>
    if c = 'e' || c = 'E' then
      let (sgn, r1) : List Char × List Char :=
        match r with
        | '+' :: r2 => (['+'], r2)
        | '-' :: r2 => (['-'], r2)
        | _ => ([], r)
      let (ds, r2) := spanDigits r1
      if ds.isEmpty then none else some (c :: (sgn ++ ds), r2)
    else some ([], c :: r)

/-- A JSON number token: optional minus, an integer part that is `0` or
starts with a nonzero digit, then optional fraction and exponent. -/
def parseJNum (l : List Char) : Option (List Char × List Char) :=
  let (np, l1) : List Char × List Char :=
    match l with
    | '-' :: r => (['-'], r)
    | _ => ([], l)
  match l1 with
  | [] => none
  | c :: r =>
    if !isDigitCh c then none
    else
      let (ip, l2) := if c = '0' then ([c], r) else spanDigits l1
      match parseJNumFrac l2 with
      | none => none
      | some (fp, l3) =>
        match parseJNumExp l3 with
        | none => none
        | some (ep, l4) => some (np ++ ip ++ fp ++ ep, l4)

mutual

/-- One JSON value, fuel-bounded; the top-level entry point passes enough
fuel for any input of the given length, so the bound never bites. -/
def parseJVal (fuel : Nat) (l : List Char) : Option (Json × List Char) :=
  match fuel with
  | 0 => none
  | fuel + 1 =>
    match skipJsonWs l with
    | [] => none
    | c :: r =>
      if c = 'n' then
        match r with
        | 'u' :: 'l' :: 'l' :: r2 => some (Json.null, r2)
        | _ => none
      else if c = 't' then
        match r with
        | 'r' :: 'u' :: 'e' :: r2 => some (Json.bool true, r2)
        | _ => none
      else if c = 'f' then
        match r with
        | 'a' :: 'l' :: 's' :: 'e' :: r2 => some (Json.bool false, r2)
        | _ => none
      else if c = '"' then
        (parseJStr r).map (fun p => (Json.str p.1, p.2))
      else if c = '[' then
        match skipJsonWs r with
        | ']' :: r2 => some (Json.arr [], r2)
        | r2 => (parseJItems fuel r2).map (fun p => (Json.arr p.1, p.2))
      else if c = '\x7b' then
        match skipJsonWs r with
        | '\x7d' :: r2 => some (Json.obj [], r2)
        | r2 => (parseJMembers fuel r2).map (fun p => (Json.obj p.1, p.2))
      else if c = '-' || isDigitCh c then
        (parseJNum (c :: r)).map (fun p => (Json.num p.1, p.2))
      else none

/-- One or more comma-separated array elements followed by `]`. -/
def parseJItems (fuel : Nat) (l : List Char) : Option (List Json × List Char) :=
  match fuel with
  | 0 => none
  | fuel + 1 =>
    match parseJVal fuel l with
    | none => none
    | some (v, r) =>
      match skipJsonWs r with
      | ',' :: r2 => (parseJItems fuel r2).map (fun p => (v :: p.1, p.2))
      | ']' :: r2 => some ([v], r2)
      | _ => none

/-- One or more comma-separated object members followed by the closing
brace. -/
def parseJMembers (fuel : Nat) (l : List Char) :
    Option (List (List Char × Json) × List Char) :=
  match fuel with
  | 0 => none
  | fuel + 1 =>
    match skipJsonWs l with
    | '"' :: r =>
      match parseJStr r with
      | none => none
      | some (k, r1) =>
        match skipJsonWs r1 with
        | ':' :: r2 =>
          match parseJVal fuel r2 with
          | none => none
          | some (v, r3) =>
            match skipJsonWs r3 with
            | ',' :: r4 => (parseJMembers fuel r4).map (fun p => ((k, v) :: p.1, p.2))
            | '\x7d' :: r4 => some ([(k, v)], r4)
            | _ => none
        | _ => none
    | _ => none

end

/-- `JSON.parse`: one value, possibly surrounded by whitespace, and
nothing after it. -/
def jsonParse (l : List Char) : Option Json :=
  match parseJVal (2 * l.length + 4) l with
  | none => none
  | some (v, r) => if (skipJsonWs r).isEmpty then some v else none

/-! ## Tail log reader -/

/-- Property lookup on a `JSON.parse` result: with duplicate keys the
later member wins, as in JavaScript object construction. -/
def lookupLast (k : List Char) : List (List Char × Json) → Option Json
  | [] => none
  | (k1, v) :: rest =>
    match lookupLast k rest with
    | some v2 => some v2
    | none => if k1 = k then some v else none

def typeKey : List Char := ['t', 'y', 'p', 'e']

/-- One iteration of the backward loop of `readLastJsonlEntry`: `some t`
when the line is nonempty, trims to something nonempty, parses as JSON,
the parse is an object (non-null, non-array), and its `type` property is
a string `t`; `none` when the line is skipped. -/
def lineMatch (line : List Char) : Option (List Char) :=
  if line.isEmpty then none
  else
    let trimmed := jsTrim line
    if trimmed.isEmpty then none
    else
      match jsonParse trimmed with
      | some (Json.obj m) =>
        match lookupLast typeKey m with
        | some (Json.str t) => some t
        | _ => none
      | _ => none

/-- The loop `for i = lines.length - 1 downto 0`, applied to the reversed
line list: the first line (in the order given) that matches wins. -/
def scanBackward : List (List Char) → Option (List Char)
  | [] => none
  | l :: rest =>
    match lineMatch l with
    | some t => some t
    | none => scanBackward rest

/-- The match of the last matching line of a list, in the list's own
order: a match later in the list shadows any earlier one. -/
def lastMatch : List (List Char) → Option (List Char)
  | [] => none
  | l :: rest =>
    match lastMatch rest with
    | some t => some t
    | none => lineMatch l

/-- An opened file: its contents and its stat mtime. `readLastJsonlEntry`
takes `Option FileData`; `none` is a file that could not be opened or
stat'd. -/
structure FileData where
  content : List Char
  mtime : Nat
deriving DecidableEq

/-- The non-absent result of the tail reader. -/
structure TailResult where
  lastType : Option (List Char)
  modifiedAt : Nat
deriving DecidableEq

def TAIL_READ_BYTES : Nat := 4096

/-- The window the source reads: `readSize = min(TAIL_READ_BYTES, size)`
bytes starting at offset `size - readSize`. -/
def tailChunk (content : List Char) : List Char :=
  let size := content.length
  let readSize := min TAIL_READ_BYTES size
  (content.drop (size - readSize)).take readSize

/-- `chunk.split("\n")` applied to the tail window. -/
def windowLines (content : List Char) : List (List Char) :=
  splitOnNl (tailChunk content)

/-- `readLastJsonlEntry` from the source: absence (`none`) when the file
cannot be opened/stat'd or is empty; otherwise the backward scan over the
lines of the tail window, falling back to a `null` `lastType`. -/
def readLastJsonlEntry (file : Option FileData) : Option TailResult :=
  match file with
  | none => none
  | some fd =>
    let size := fd.content.length
    if size = 0 then none
    else
      let lines := windowLines fd.content
      match scanBackward lines.reverse with
      | some t => some ⟨some t, fd.mtime⟩
      | none => some ⟨none, fd.mtime⟩

/-! ## Concrete inputs used by the claims -/

/-- The file content of the well-formed two-record example. -/
def exTwoRecords : List Char :=
  ("\x7b\"type\":\"a\"\x7d\n\x7b\"type\":\"b\"\x7d\n").toList

/-- The file content whose final line is an unterminated fragment. -/
def exTruncatedTail : List Char :=
  ("\x7b\"type\":\"a\"\x7d\n\x7b\"type\":\"b\"").toList

/-- A nonempty file none of whose lines carries a recognised record. -/
def exNoRecord : List Char := ("hello\n").toList

/-- The complete record sitting at the window boundary in the
fragment-collision file below. -/
def fragRecord : List Char := ("\x7b\"type\":\"bad\"\x7d").toList

/-- A file of 8179 characters: one 4097-character first line (4083 `x`s
followed by `fragRecord`), then 4082 newlines. Its 4096-character tail
window begins exactly at the opening brace of `fragRecord`, so the
window's first line is a truncated fragment of the first line of the file
that nevertheless parses as a complete record. -/
def fragContent : List Char :=
  List.replicate 4083 'x' ++ (fragRecord ++ '\n' :: List.replicate 4081 '\n')

/-- The per-character expansion named by the specification of the shell
escaper: every embedded single quote becomes the four-character sequence
`'\''`, all other characters stand for themselves. -/
def shellEscapeExpand : List Char → List Char
  | [] => []
  | c :: cs => (if c = '\'' then shQuoteRepl else [c]) ++ shellEscapeExpand cs

/-! ## Helper lemmas -/

theorem replaceAllChar_append (t : Char) (r a b : List Char) :
    replaceAllChar t r (a ++ b) = replaceAllChar t r a ++ replaceAllChar t r b := by
  induction a with
  | nil => rfl
  | cons c cs ih => simp [replaceAllChar, ih]

theorem shInterpret_quoted_tail (s : List Char) :
    shInterpret ShState.quoted (replaceAllChar '\'' shQuoteRepl s ++ ['\'']) = some s := by
  induction s with
  | nil => rfl
  | cons c cs ih =>
    by_cases hc : c = '\''
    · subst hc
      have hbs : ('\\' : Char) ≠ '\'' := by decide
      have ih2 := ih
      simp only [shQuoteRepl] at ih2
      simp only [replaceAllChar, shQuoteRepl, if_pos rfl, List.cons_append, List.append_assoc,
        List.nil_append]
      simp only [shInterpret, if_pos rfl, if_neg hbs]
      simp [ih2]
    · simp only [replaceAllChar, if_neg hc, List.cons_append, List.nil_append]
      simp [shInterpret, hc, ih]

theorem escapeAppleScript_cons (c : Char) (s : List Char) :
    escapeAppleScript (c :: s) = asEscChar c ++ escapeAppleScript s := by
  by_cases hb : c = '\\'
  · subst hb
    have h1 : ('\\' : Char) ≠ '"' := by decide
    simp [escapeAppleScript, replaceAllChar, asEscChar, h1]
  · by_cases hq : c = '"'
    · subst hq
      have h2 : ('"' : Char) ≠ '\\' := by decide
      simp [escapeAppleScript, replaceAllChar, asEscChar, h2]
    · simp [escapeAppleScript, replaceAllChar, asEscChar, hb, hq]

theorem escapeAppleScript_flat (s : List Char) :
    escapeAppleScript s = s.flatMap asEscChar := by
  induction s with
  | nil => rfl
  | cons c cs ih => rw [escapeAppleScript_cons, List.flatMap_cons, ih]

theorem asLiteralBody_escaped (s : List Char) :
    asLiteralBody false (s.flatMap asEscChar ++ ['"']) = some s := by
  induction s with
  | nil => rfl
  | cons c cs ih =>
    by_cases hb : c = '\\'
    · subst hb
      have h1 : ('\\' : Char) ≠ '"' := by decide
      simp only [List.flatMap_cons, asEscChar, if_pos rfl, List.cons_append, List.append_assoc,
        List.nil_append]
      simp only [asLiteralBody, if_neg h1, if_pos rfl, asUnescape]
      simp [ih]
    · by_cases hq : c = '"'
      · subst hq
        have h2 : ('"' : Char) ≠ '\\' := by decide
        simp only [List.flatMap_cons, asEscChar, if_neg h2, if_pos rfl, List.cons_append,
          List.append_assoc, List.nil_append]
        simp only [asLiteralBody, if_neg h2, if_pos rfl, asUnescape]
        simp [ih]
      · simp only [List.flatMap_cons, asEscChar, if_neg hb, if_neg hq, List.cons_append,
          List.nil_append]
        simp only [asLiteralBody, if_neg hb, if_neg hq]
        simp [ih]

theorem scanBackward_append (a b : List (List Char)) :
    scanBackward (a ++ b) = (scanBackward a).orElse (fun _ => scanBackward b) := by
  induction a with
  | nil => rfl
  | cons l rest ih =>
    simp only [List.cons_append, scanBackward]
    cases lineMatch l
    · simpa using ih
    · rfl

theorem scanBackward_reverse (ls : List (List Char)) :
    scanBackward ls.reverse = lastMatch ls := by
  induction ls with
  | nil => rfl
  | cons l rest ih =>
    rw [List.reverse_cons, scanBackward_append, ih]
    cases h : lastMatch rest
    · cases h2 : lineMatch l <;> simp [Option.orElse, lastMatch, h, h2, scanBackward]
    · simp [Option.orElse, lastMatch, h]

theorem readLast_eq_lastMatch (fd : FileData) (h : fd.content ≠ []) :
    readLastJsonlEntry (some fd) = some ⟨lastMatch (windowLines fd.content), fd.mtime⟩ := by
  have hlen : fd.content.length ≠ 0 := by simpa using h
  simp only [readLastJsonlEntry, if_neg hlen, scanBackward_reverse]
  cases lastMatch (windowLines fd.content) <;> rfl

theorem splitOnNl_replicate (n : Nat) :
    splitOnNl (List.replicate n '\n') = List.replicate (n + 1) ([] : List Char) := by
  induction n with
  | zero => rfl
  | succ k ih => simp [List.replicate, splitOnNl, ih]

theorem splitOnNl_line_append (l r : List Char) (h : ∀ c ∈ l, c ≠ '\n') :
    splitOnNl (l ++ '\n' :: r) = l :: splitOnNl r := by
  induction l with
  | nil => simp [splitOnNl]
  | cons c cs ih =>
    have hc : c ≠ '\n' := h c (by simp)
    have ih2 := ih (fun d hd => h d (by simp [hd]))
    simp only [List.cons_append, splitOnNl, if_neg hc, List.append_eq, ih2]

theorem lastMatch_replicate_nil (n : Nat) :
    lastMatch (List.replicate n ([] : List Char)) = none := by
  induction n with
  | zero => rfl
  | succ k ih =>
    rw [List.replicate_succ, lastMatch, ih]
    rfl

theorem fragRecord_no_nl : ∀ c ∈ fragRecord, c ≠ '\n' := by decide

theorem fragContent_length : fragContent.length = 8179 := by
  have hr : fragRecord.length = 14 := by decide
  rw [fragContent, List.length_append, List.length_append, List.length_cons,
    List.length_replicate, List.length_replicate, hr]

theorem fragTailChunk :
    tailChunk fragContent = fragRecord ++ '\n' :: List.replicate 4081 '\n' := by
  have hr : fragRecord.length = 14 := by decide
  have hmin : min TAIL_READ_BYTES (8179 : Nat) = 4096 := by norm_num [TAIL_READ_BYTES]
  simp only [tailChunk, fragContent_length, hmin]
  norm_num
  rw [fragContent, List.drop_left' (List.length_replicate 4083 'x')]
  apply List.take_of_length_le
  rw [List.length_append, List.length_cons, List.length_replicate, hr]

theorem fragWindowLines :
    windowLines fragContent = fragRecord :: List.replicate 4082 ([] : List Char) := by
  rw [windowLines, fragTailChunk, splitOnNl_line_append _ _ fragRecord_no_nl,
    splitOnNl_replicate]

theorem fragLastMatch :
    lastMatch (windowLines fragContent) = some ['b', 'a', 'd'] := by
  rw [fragWindowLines, lastMatch, lastMatch_replicate_nil]
  decide

theorem lastMatch_eq_none (ls : List (List Char)) :
    lastMatch ls = none ↔ ∀ l ∈ ls, lineMatch l = none := by
  induction ls with
  | nil => simp [lastMatch]
  | cons l rest ih =>
    rw [lastMatch]
    cases h : lastMatch rest with
    | none =>
      have hrest := ih.mp h
      simp only [List.mem_cons]
      constructor
      · intro hl x hx
        rcases hx with rfl | hx
        · exact hl
        · exact hrest x hx
      · intro hall
        exact hall l (Or.inl rfl)
    | some t =>
      have hne : ¬ ∀ l2 ∈ rest, lineMatch l2 = none := by
        intro hall
        rw [ih.mpr hall] at h
        exact Option.noConfusion h
      constructor
      · intro hsome
        exact Option.noConfusion hsome
      · intro hall
        exact absurd (fun x hx => hall x (List.mem_cons_of_mem _ hx)) hne

/-! ## The claims -/

/-- C1: for every string `s` (including the empty string and strings
containing single quotes, double quotes, backslashes, and newlines),
interpreting `shellEscape s` under POSIX shell single-quote rules as one
token yields exactly `s`. -/
theorem c1_shellEscape_roundtrip (s : List Char) :
    shInterpret ShState.plain (shellEscape s) = some s := by
  have h := shInterpret_quoted_tail s
  simp [shellEscape, shInterpret, h]

/-- C2: `escapeAppleScript` is exactly the two ordered substitutions of
the source (every backslash doubled first, then every double quote
prefixed with a backslash), and placing its output between a pair of
double quotes evaluates, under AppleScript string-literal rules, to
exactly the input. -/
theorem c2_escapeAppleScript_roundtrip (s : List Char) :
    escapeAppleScript s
      = replaceAllChar '"' ['\\', '"'] (replaceAllChar '\\' ['\\', '\\'] s)
    ∧ asLiteralEval ('"' :: (escapeAppleScript s ++ ['"'])) = some s := by
  refine ⟨rfl, ?_⟩
  rw [asLiteralEval, if_pos rfl, escapeAppleScript_flat]
  exact asLiteralBody_escaped s

/-- C9: `shellEscape s` is a single quote, then `s` with every embedded
single quote replaced by the four-character sequence `'\''`, then a
single quote; the empty string maps to the two-character string `''`.
Totality with a unique output and no failure condition is inherent in the
embedding as a Lean function into strings. -/
theorem c9_shellEscape_shape (s : List Char) :
    shellEscape s = '\'' :: (shellEscapeExpand s ++ ['\''])
    ∧ shellEscape [] = ['\'', '\''] := by
  constructor
  · have h : replaceAllChar '\'' shQuoteRepl s = shellEscapeExpand s := by
      induction s with
      | nil => rfl
      | cons c cs ih => simp [replaceAllChar, shellEscapeExpand, ih]
    simp [shellEscape, h]
  · rfl

/-- C10: every character other than backslash and double quote (newlines
and control characters included) passes through `escapeAppleScript`
unchanged and in order — the output is the in-order concatenation of
per-character expansions that are the identity except at backslash and
double quote — and a string containing neither character is returned
unchanged. -/
theorem c10_escapeAppleScript_passthrough (s : List Char) :
    escapeAppleScript s = s.flatMap asEscChar
    ∧ ((∀ c ∈ s, c ≠ '\\' ∧ c ≠ '"') → escapeAppleScript s = s) := by
  refine ⟨escapeAppleScript_flat s, ?_⟩
  induction s with
  | nil => intro _; rfl
  | cons c cs ih =>
    intro h
    have hc := h c (by simp)
    rw [escapeAppleScript_cons, ih (fun d hd => h d (by simp [hd]))]
    simp [asEscChar, hc.1, hc.2]

/-- Witness for C10 at a concrete quote-free and backslash-free string. -/
theorem c10_escapeAppleScript_passthrough_witness :
    escapeAppleScript (("hi\n").toList) = ("hi\n").toList :=
  (c10_escapeAppleScript_passthrough (("hi\n").toList)).2 (by decide)

/-- C3: for a readable nonempty file whose tail window has at least one
line that parses as a non-null, non-array JSON object with a string
`type` field, the reader returns that last such line's `type` together
with the stat'd mtime (`lastMatch` is by construction the match of the
last matching line, later lines shadowing earlier ones, and every
non-matching line — empty, whitespace-only, unparseable, or parseable but
not an object with a string `type` — contributes `none` through
`lineMatch`, i.e. is skipped without surfacing an error); and the two
concrete files of the claim produce `"b"` and `"a"` respectively. -/
theorem c3_lastType :
    (∀ (fd : FileData) (t : List Char), fd.content ≠ [] →
        lastMatch (windowLines fd.content) = some t →
        readLastJsonlEntry (some fd) = some ⟨some t, fd.mtime⟩)
    ∧ readLastJsonlEntry (some ⟨exTwoRecords, 7⟩) = some ⟨some ['b'], 7⟩
    ∧ readLastJsonlEntry (some ⟨exTruncatedTail, 7⟩) = some ⟨some ['a'], 7⟩ := by
  refine ⟨fun fd t hne hm => ?_, by decide, by decide⟩
  rw [readLast_eq_lastMatch fd hne, hm]

/-- Witness for C3: the general part applied to the two-record file. -/
theorem c3_lastType_witness :
    readLastJsonlEntry (some ⟨exTwoRecords, 9⟩) = some ⟨some ['b'], 9⟩ :=
  c3_lastType.1 ⟨exTwoRecords, 9⟩ ['b'] (by decide) (by decide)

/-- C4: the reader returns the absence value exactly when the file cannot
be opened or stat'd (the `none` input, covering missing file, permission
denied and I/O failure indistinguishably) or when its size is zero; in
every other case the result is non-`none`. -/
theorem c4_absence (ofd : Option FileData) :
    readLastJsonlEntry ofd = none
      ↔ (ofd = none ∨ ∃ fd, ofd = some fd ∧ fd.content = []) := by
  cases ofd with
  | none => simp [readLastJsonlEntry]
  | some fd =>
    constructor
    · intro h
      right
      refine ⟨fd, rfl, ?_⟩
      by_contra hne
      rw [readLast_eq_lastMatch fd hne] at h
      exact Option.noConfusion h
    · intro h
      rcases h with h | ⟨fd2, heq, hc⟩
      · exact Option.noConfusion h
      · injection heq with heq2
        subst heq2
        simp [readLastJsonlEntry, hc]

/-- Witness for C4 at the empty file. -/
theorem c4_absence_witness : readLastJsonlEntry (some ⟨[], 5⟩) = none :=
  (c4_absence (some ⟨[], 5⟩)).mpr (Or.inr ⟨⟨[], 5⟩, rfl, rfl⟩)

/-- C5: for a nonempty file the window the reader examines has length
exactly `min 4096 size` (hence never more than 4096), is located at
offset `size - min 4096 size` (it is the `drop` of exactly that many
characters), and the reader's result depends on nothing outside this
window and the mtime: two nonempty files with equal tail windows and
equal mtimes produce equal results. -/
theorem c5_window (fd : FileData) (hne : fd.content ≠ []) :
    (tailChunk fd.content).length = min TAIL_READ_BYTES fd.content.length
    ∧ tailChunk fd.content
        = fd.content.drop (fd.content.length - min TAIL_READ_BYTES fd.content.length)
    ∧ (tailChunk fd.content).length ≤ TAIL_READ_BYTES
    ∧ (∀ fd2 : FileData, fd2.content ≠ [] → fd2.mtime = fd.mtime →
        tailChunk fd2.content = tailChunk fd.content →
        readLastJsonlEntry (some fd2) = readLastJsonlEntry (some fd)) := by
  have hlen : (tailChunk fd.content).length = min TAIL_READ_BYTES fd.content.length := by
    simp only [tailChunk, List.length_take, List.length_drop]
    omega
  refine ⟨hlen, ?_, ?_, ?_⟩
  · simp only [tailChunk]
    apply List.take_of_length_le
    simp only [List.length_drop]
    omega
  · rw [hlen]
    exact Nat.min_le_left _ _
  · intro fd2 h2 hmt hchunk
    rw [readLast_eq_lastMatch fd2 h2, readLast_eq_lastMatch fd hne]
    simp [windowLines, hchunk, hmt]

/-- Witness for C5 at a one-character file. -/
theorem c5_window_witness :
    (tailChunk ['a']).length = min TAIL_READ_BYTES (['a'] : List Char).length
    ∧ readLastJsonlEntry (some ⟨['a'], 5⟩) = readLastJsonlEntry (some ⟨['a'], 5⟩) :=
  ⟨(c5_window ⟨['a'], 5⟩ (by decide)).1,
   (c5_window ⟨['a'], 5⟩ (by decide)).2.2.2 ⟨['a'], 5⟩ (by decide) rfl rfl⟩

/-- C6: for a readable nonempty file none of whose window lines parses as
a non-null, non-array JSON object with a string `type` field, the reader
returns `lastType = none` with the mtime — not the absence value — even
when, as for a large file whose matching lines all precede the window,
recognisable entries exist outside the window. -/
theorem c6_noRecognised (fd : FileData) (hne : fd.content ≠ [])
    (hnone : ∀ l ∈ windowLines fd.content, lineMatch l = none) :
    readLastJsonlEntry (some fd) = some ⟨none, fd.mtime⟩ := by
  rw [readLast_eq_lastMatch fd hne, (lastMatch_eq_none _).mpr hnone]

/-- Witness for C6 at a nonempty file with no recognisable record. -/
theorem c6_noRecognised_witness :
    readLastJsonlEntry (some ⟨exNoRecord, 3⟩) = some ⟨none, 3⟩ :=
  c6_noRecognised ⟨exNoRecord, 3⟩ (by decide) (by decide)

/-- C8: `validateUrl` throws exactly when the url begins with neither
`http://` nor `https://`; the error message contains the label and the
url verbatim (as contiguous substrings); with either prefix it returns
normally with no value. -/
theorem c8_validateUrl (url label : List Char) :
    (validateUrl url label = Except.ok ()
       ↔ (("http://").toList <+: url ∨ ("https://").toList <+: url))
    ∧ (∀ e, validateUrl url label = Except.error e →
        (label <:+: e ∧ url <:+: e)) := by
  have hlab : label <:+: invalidUrlMsg url label := by
    refine ⟨['['], ("] Invalid url: must be http(s), got \"").toList ++ (url ++ ['"']), ?_⟩
    simp [invalidUrlMsg]
  have hurl : url <:+: invalidUrlMsg url label := by
    refine ⟨'[' :: label ++ ("] Invalid url: must be http(s), got \"").toList, ['"'], ?_⟩
    simp [invalidUrlMsg]
  cases h1 : ("https://").toList.isPrefixOf url with
  | true =>
    have hok : validateUrl url label = Except.ok () := by
      simp only [validateUrl]
      rw [h1]
      rfl
    refine ⟨?_, ?_⟩
    · rw [hok]
      simp only [true_iff]
      exact Or.inr (List.isPrefixOf_iff_prefix.mp h1)
    · intro e he
      rw [hok] at he
      exact Except.noConfusion he
  | false =>
    cases h2 : ("http://").toList.isPrefixOf url with
    | true =>
      have hok : validateUrl url label = Except.ok () := by
        simp only [validateUrl]
        rw [h1, h2]
        rfl
      refine ⟨?_, ?_⟩
      · rw [hok]
        simp only [true_iff]
        exact Or.inl (List.isPrefixOf_iff_prefix.mp h2)
      · intro e he
        rw [hok] at he
        exact Except.noConfusion he
    | false =>
      have herr : validateUrl url label = Except.error (invalidUrlMsg url label) := by
        simp only [validateUrl]
        rw [h1, h2]
        rfl
      refine ⟨?_, ?_⟩
      · constructor
        · intro hok
          rw [herr] at hok
          exact Except.noConfusion hok
        · intro hp
          rcases hp with hp | hp
          · exact absurd (List.isPrefixOf_iff_prefix.mpr hp) (by rw [h2]; simp)
          · exact absurd (List.isPrefixOf_iff_prefix.mpr hp) (by rw [h1]; simp)
      · intro e he
        rw [herr] at he
        injection he with he2
        rw [← he2]
        exact ⟨hlab, hurl⟩

/-- Witness for C8: the error for `ftp://x` contains both the label and
the url. -/
theorem c8_validateUrl_witness :
    ("P").toList <:+: invalidUrlMsg (("ftp://x").toList) (("P").toList)
    ∧ ("ftp://x").toList <:+: invalidUrlMsg (("ftp://x").toList) (("P").toList) :=
  (c8_validateUrl (("ftp://x").toList) (("P").toList)).2 _ rfl

/-- C7 counterexample: in `fragContent` the file is larger than the
window (8179 > 4096), the character immediately before the window start
is `x` (so the window's first line is a byte-level truncated fragment of
the file's 4097-character first line), that fragment is `fragRecord`, it
parses on its own as an object with `type = "bad"`, and the reader
returns exactly that `"bad"` — a `lastType` derived from the truncated
leading fragment, contradicting "never". -/
theorem c7_fragment_counterexample :
    TAIL_READ_BYTES < fragContent.length
    ∧ fragContent[4082]? = some 'x'
    ∧ (windowLines fragContent).head? = some fragRecord
    ∧ lineMatch fragRecord = some ['b', 'a', 'd']
    ∧ readLastJsonlEntry (some ⟨fragContent, 0⟩) = some ⟨some ['b', 'a', 'd'], 0⟩ := by
  have hne : fragContent ≠ [] := by
    intro h
    have hl := fragContent_length
    rw [h] at hl
    exact absurd hl (by decide)
  refine ⟨?_, ?_, ?_, ?_, ?_⟩
  · rw [fragContent_length]
    norm_num [TAIL_READ_BYTES]
  · rw [fragContent]
    rw [List.getElem?_append, List.length_replicate, if_pos (by norm_num),
      List.getElem?_replicate, if_pos (by norm_num)]
  · rw [fragWindowLines]
    rfl
  · decide
  · rw [readLast_eq_lastMatch ⟨fragContent, 0⟩ hne]
    rw [show (⟨fragContent, 0⟩ : FileData).content = fragContent from rfl, fragLastMatch]

/-- C7 as amended: the first line of the window is never specially
assumed complete — every line, including the truncated leading fragment,
contributes to the result only through its own parse (`lineMatch`), the
result being the match of the last matching window line; consequently a
truncated fragment is discarded when (and only when) it does not itself
parse as an object with a string `type` field. -/
theorem c7_no_special_first_line (fd : FileData) (hne : fd.content ≠ []) :
    readLastJsonlEntry (some fd) = some ⟨lastMatch (windowLines fd.content), fd.mtime⟩ :=
  readLast_eq_lastMatch fd hne

/-- Witness for the amended C7 at a concrete nonempty file. -/
theorem c7_no_special_first_line_witness :
    readLastJsonlEntry (some ⟨exNoRecord, 4⟩)
      = some ⟨lastMatch (windowLines exNoRecord), 4⟩ :=
  c7_no_special_first_line ⟨exNoRecord, 4⟩ (by decide)
